import Mathlib

/-!
# A virtual-memory backed growable array (`src/main.cc`)

Shallow embedding of `template <typename T, typename R> struct vector` and
of the operating-system calls it makes.

* The element type `T` is a Lean type `α` together with a record `Params α`
  that holds what the template reads off `T` and `R`: `sizeof(T)`, the
  type-trait booleans used by the `enable_if` dispatch, the object
  representation of a value (for `memmove`), the page size and the ratio.
* The reservation is viewed, as the code views it through `m_start`, as an
  array of slots: `mem i` is the value held by `m_start[i]`.
* Every operating-system call that can be refused takes its answer as an
  argument (`os_ok`, `mmap_result`), so every statement holds for every
  behaviour of the OS.
* A method that can throw returns `Result`: the container as it is when the
  method returns, or the exception together with the container as it is
  when the exception leaves the method.
* Successful OS calls and element life-time events are appended to `log`.
-/

namespace Vec

/-- Modulus of `size_t` arithmetic (64-bit Linux, the platform of `<sys/mman.h>`). -/
def SIZE_MOD : Nat := 2 ^ 64

/-- Exceptions and aborts of the program: `std::bad_alloc`, `mprotect_error`
(line 168) and a failed `assert`. -/
inductive Error where
  | bad_alloc
  | mprotect_error
  | assertion
  deriving DecidableEq, Repr

/-- Page protection passed to `mmap` / `mprotect`. -/
inductive Prot where
  | PROT_NONE
  | PROT_READ
  | PROT_READ_WRITE
  deriving DecidableEq, Repr

/-- Observable events: granted protection changes, the release of the
reservation, and the life-time events of the slot with the given index. -/
inductive Event where
  | mprotect (addr len : Nat) (prot : Prot)
  | munmap (addr len : Nat)
  | construct (i : Nat)
  | assign (i : Nat)
  | destroy (i : Nat)
  deriving DecidableEq, Repr

/-- Outcome of a method: normal return with the resulting object, or an
exception together with the object as it is at the throw. -/
inductive Result (σ : Type) where
  | ok (s : σ)
  | throw (e : Error) (s : σ)

/-- The object after the call, whether it returned or threw. -/
def Result.state {σ : Type} : Result σ → σ
  | Result.ok s => s
  | Result.throw _ s => s

/-- True when the call returned normally. -/
def Result.isOk {σ : Type} : Result σ → Bool
  | Result.ok _ => true
  | Result.throw _ _ => false

/-- What the template reads off its parameters and the platform:
`helper::page_size`, `sizeof(T)`, `R::num`, `R::den`, the three type traits,
the object representation of a `T` (`toBytes`, `sizeofT` bytes, and its
inverse `ofBytes`), and the value a move-assignment leaves in its source. -/
structure Params (α : Type) where
  page_size : Nat
  sizeofT : Nat
  num : Nat
  den : Nat
  is_trivially_copyable : Bool
  is_move_assignable : Bool
  is_trivially_destructible : Bool
  toBytes : α → List Nat
  ofBytes : List Nat → α
  movedFrom : α → α

/-- Data members of `vector` (lines 205-209) with the contents of the
reservation (`mem i` is the value of `m_start[i]`) and the event log. -/
structure vector (α : Type) where
  m_data : Nat
  m_start : Nat
  m_mappingSize : Nat
  m_capacity : Nat
  m_size : Nat
  mem : Nat → α
  log : List Event

/-- Store `x` in slot `i`. -/
def store {α : Type} (mem : Nat → α) (i : Nat) (x : α) : Nat → α :=
  fun j => if j = i then x else mem j

/-- Lines 178-186: `realloc_cap(bytes)`. -/
def realloc_cap {α : Type} (P : Params α) (v : vector α) (bytes : Nat) (os_ok : Bool) :
    Result (vector α) :=
  if bytes > v.m_mappingSize then
    Result.throw Error.bad_alloc v
  else if os_ok = false then
    Result.throw Error.mprotect_error v
  else
    Result.ok { v with
      m_capacity := bytes / P.sizeofT
      log := v.log ++ [Event.mprotect v.m_data bytes Prot.PROT_READ_WRITE] }

/-- Lines 172-176: `resize_if_needed()`. The product is computed in `size_t`. -/
def resize_if_needed {α : Type} (P : Params α) (v : vector α) (os_ok : Bool) :
    Result (vector α) :=
  if v.m_size = v.m_capacity then
    realloc_cap P v ((v.m_capacity * P.sizeofT * P.num) % SIZE_MOD / P.den) os_ok
  else
    Result.ok v

/-- Lines 53-64: `vector(const memory_size)`. `mmap_result` is what
`reserve_memory` returned (`none` for `MAP_FAILED`), `mem0` the initial
contents of the mapping. `m_capacity` and `m_start` are not initialised
before `realloc_cap` runs and are not read by it. A constructor that throws
leaves no object. -/
def vector.ctor_memory_size {α : Type} (P : Params α) (memoryInBytes : Nat)
    (mmap_result : Option Nat) (mem0 : Nat → α) (os_ok : Bool) : Except Error (vector α) :=
  if ¬ (P.sizeofT < P.page_size) then
    Except.error Error.assertion
  else
    match mmap_result with
    | none => Except.error Error.bad_alloc
    | some addr =>
      match realloc_cap P
          { m_data := addr, m_start := 0, m_mappingSize := memoryInBytes,
            m_capacity := 0, m_size := 0, mem := mem0, log := [] }
          (P.page_size / P.sizeofT) os_ok with
      | Result.throw e _ => Except.error e
      | Result.ok s => Except.ok { s with m_start := s.m_data }

/-- Lines 48-51: `vector(const element_count)`. -/
def vector.ctor_element_count {α : Type} (P : Params α) (elements : Nat)
    (mmap_result : Option Nat) (mem0 : Nat → α) (os_ok : Bool) : Except Error (vector α) :=
  vector.ctor_memory_size P ((elements * P.sizeofT) % SIZE_MOD) mmap_result mem0 os_ok

/-- Lines 66-68: the destructor; returns the final event log. -/
def vector.dtor {α : Type} (v : vector α) : List Event :=
  v.log ++ [Event.munmap v.m_data v.m_mappingSize]

/-- Lines 201-203: `valid(i)`. -/
def valid {α : Type} (v : vector α) (i : Nat) : Bool :=
  decide (i ≥ 0) && decide (i < v.m_size)

/-- Lines 70-78: `operator[]`; `none` when the assertion fails. -/
def operator_index {α : Type} (v : vector α) (i : Nat) : Option α :=
  if valid v i then some (v.mem i) else none

/-- Address of `m_start[i]`. -/
def address_of {α : Type} (P : Params α) (v : vector α) (i : Nat) : Nat :=
  v.m_start + i * P.sizeofT

/-- Lines 146-148. -/
def size {α : Type} (v : vector α) : Nat := v.m_size

/-- Lines 150-152. -/
def capacity {α : Type} (v : vector α) : Nat := v.m_capacity

/-- Lines 126-128 and 134-136: `begin()`, as a slot index. -/
def vbegin {α : Type} (_v : vector α) : Nat := 0

/-- Lines 130-132 and 138-140: `end()`, as a slot index. -/
def vend {α : Type} (v : vector α) : Nat := v.m_size

/-- Lines 80-83: `push_back(val)`. `m_size` counts constructed slots of one
address space and is not reduced modulo `SIZE_MOD`. -/
def push_back {α : Type} (P : Params α) (v : vector α) (val : α) (os_ok : Bool) :
    Result (vector α) :=
  match resize_if_needed P v os_ok with
  | Result.throw e s => Result.throw e s
  | Result.ok s =>
    Result.ok { s with
      mem := store s.mem s.m_size val
      m_size := s.m_size + 1
      log := s.log ++ [Event.construct s.m_size] }

/-- Lines 85-89: `emplace_back(args...)`; `val` is the value `T(args...)`. -/
def emplace_back {α : Type} (P : Params α) (v : vector α) (val : α) (os_ok : Bool) :
    Result (vector α) :=
  match resize_if_needed P v os_ok with
  | Result.throw e s => Result.throw e s
  | Result.ok s =>
    Result.ok { s with
      mem := store s.mem s.m_size val
      m_size := s.m_size + 1
      log := s.log ++ [Event.construct s.m_size] }

/-- Lines 188-199: `destroy(first, last)`, on the event log: nothing for a
trivially destructible `T`, else one destructor call for each slot from `first`
up to `last` (`first <= last`). -/
def destroy {α : Type} (P : Params α) (log : List Event) (first last : Nat) : List Event :=
  if P.is_trivially_destructible then log
  else log ++ (List.range' first (last - first)).map Event.destroy

/-- Byte at offset `o` from `m_start`. -/
def byte_at {α : Type} (P : Params α) (mem : Nat → α) (o : Nat) : Nat :=
  (P.toBytes (mem (o / P.sizeofT))).getD (o % P.sizeofT) 0

/-- The library call `memmove(dst, src, count)` on byte offsets from `m_start`:
byte `dst + k` receives the former byte `src + k` for `k < count`; slots none
of whose bytes is written keep their value. -/
def memmove {α : Type} (P : Params α) (mem : Nat → α) (dst src count : Nat) : Nat → α :=
  fun i =>
    if i * P.sizeofT < dst + count ∧ dst < (i + 1) * P.sizeofT ∧ 0 < count then
      P.ofBytes ((List.range P.sizeofT).map (fun k =>
        let o := i * P.sizeofT + k
        if dst ≤ o ∧ o < dst + count then byte_at P mem (src + (o - dst))
        else byte_at P mem o))
    else mem i

/-- Lines 104-108: the loop of the move-assigning `erase`, `n` iterations left. -/
def move_loop {α : Type} (P : Params α) : Nat → Nat → Nat → vector α → vector α
  | 0, _, _, v => v
  | n + 1, start, next, v =>
    let x := v.mem next
    move_loop P n (start + 1) (next + 1)
      { v with
        mem := store (store v.mem start x) next (P.movedFrom x)
        log := v.log ++ [Event.assign start] }

/-- Lines 117-121: the loop of the copy-assigning `erase`, `n` iterations left. -/
def copy_loop {α : Type} : Nat → Nat → Nat → vector α → vector α
  | 0, _, _, v => v
  | n + 1, start, next, v =>
    copy_loop n (start + 1) (next + 1)
      { v with
        mem := store v.mem start (v.mem next)
        log := v.log ++ [Event.assign start] }

/-- Lines 91-96: `erase(first, last)` for trivially copyable `T`. The third
argument of `memmove` is the pointer difference `end() - last`, a number of
elements (`last <= end()` is the precondition of the method). -/
def erase_trivially_copyable {α : Type} (P : Params α) (v : vector α) (first last : Nat) :
    vector α :=
  { v with
    log := destroy P v.log first last
    mem := memmove P v.mem (first * P.sizeofT) (last * P.sizeofT) (vend v - last) }

/-- Lines 98-109: `erase(first, last)` by move assignment. The loop runs until
`next == end()`, that is `end() - last` times. -/
def erase_move_assign {α : Type} (P : Params α) (v : vector α) (first last : Nat) :
    vector α :=
  move_loop P (vend v - last) first last { v with log := destroy P v.log first last }

/-- Lines 111-122: `erase(first, last)` by copy assignment. -/
def erase_copy_assign {α : Type} (P : Params α) (v : vector α) (first last : Nat) :
    vector α :=
  copy_loop (vend v - last) first last { v with log := destroy P v.log first last }

/-- Lines 91-122: the overload of `erase(first, last)` selected by `enable_if`. -/
def erase {α : Type} (P : Params α) (v : vector α) (first last : Nat) : vector α :=
  if P.is_trivially_copyable then erase_trivially_copyable P v first last
  else if P.is_move_assignable then erase_move_assign P v first last
  else erase_copy_assign P v first last

/-- Line 124: `erase(it)`. -/
def erase_one {α : Type} (P : Params α) (v : vector α) (it : Nat) : vector α :=
  erase P v it (it + 1)

/-- Lines 142-144: `clear()`. -/
def clear {α : Type} (P : Params α) (v : vector α) : vector α :=
  erase P v (vbegin v) (vend v)

/-- Lines 154-158: `freez()`. -/
def freez {α : Type} (P : Params α) (v : vector α) (os_ok : Bool) : Result (vector α) :=
  if os_ok = false then Result.throw Error.mprotect_error v
  else Result.ok { v with
    log := v.log ++
      [Event.mprotect v.m_data ((v.m_capacity * P.sizeofT) % SIZE_MOD) Prot.PROT_READ] }

/-- Lines 160-164: `unfreez()`. -/
def unfreez {α : Type} (P : Params α) (v : vector α) (os_ok : Bool) : Result (vector α) :=
  if os_ok = false then Result.throw Error.mprotect_error v
  else Result.ok { v with
    log := v.log ++
      [Event.mprotect v.m_data ((v.m_capacity * P.sizeofT) % SIZE_MOD) Prot.PROT_READ_WRITE] }

/-- A call of a public mutating method, with the answer of the OS where the
method asks it. -/
inductive Op (α : Type) where
  | push_back (val : α) (os_ok : Bool)
  | emplace_back (val : α) (os_ok : Bool)
  | erase (first last : Nat)
  | erase_one (it : Nat)
  | clear
  | freez (os_ok : Bool)
  | unfreez (os_ok : Bool)

/-- Perform one call. -/
def step {α : Type} (P : Params α) (v : vector α) : Op α → Result (vector α)
  | Op.push_back val os_ok => push_back P v val os_ok
  | Op.emplace_back val os_ok => emplace_back P v val os_ok
  | Op.erase first last => Result.ok (erase P v first last)
  | Op.erase_one it => Result.ok (erase_one P v it)
  | Op.clear => Result.ok (clear P v)
  | Op.freez os_ok => freez P v os_ok
  | Op.unfreez os_ok => unfreez P v os_ok

/-- Perform the calls in order; a caller that catches an exception goes on
with the object as the throwing call left it. -/
def run {α : Type} (P : Params α) (v : vector α) : List (Op α) → vector α
  | [] => v
  | op :: ops => run P (step P v op).state ops

/-- Perform `push_back` for each value in order, stopping at the first call
that throws; `none` when some call threw. -/
def push_all {α : Type} (P : Params α) (v : vector α) : List (α × Bool) → Option (vector α)
  | [] => some v
  | (val, os_ok) :: rest =>
    match push_back P v val os_ok with
    | Result.ok s => push_all P s rest
    | Result.throw _ _ => none

/-- Object representation of `uint64_t` on x86-64: eight bytes, least
significant first. -/
def u64_toBytes (x : Nat) : List Nat :=
  (List.range 8).map (fun k => x / 256 ^ k % 256)

/-- Value of an object representation of `uint64_t`. -/
def u64_ofBytes (bs : List Nat) : Nat :=
  ((List.range 8).map (fun k => bs.getD k 0 * 256 ^ k)).sum

/-- Instantiation `vector<uint64_t>` of the test (line 224) with 4096-byte pages. -/
def P_u64 : Params Nat :=
  { page_size := 4096, sizeofT := 8, num := 3, den := 2,
    is_trivially_copyable := true, is_move_assignable := true,
    is_trivially_destructible := true,
    toBytes := u64_toBytes, ofBytes := u64_ofBytes, movedFrom := id }

/-- A trivially copyable `struct` of `s` bytes (such as one holding `char buf[s]`),
as its object representation, with 4096-byte pages and the default ratio. -/
def P_blob (s : Nat) : Params (List Nat) :=
  { page_size := 4096, sizeofT := s, num := 3, den := 2,
    is_trivially_copyable := true, is_move_assignable := true,
    is_trivially_destructible := true,
    toBytes := id, ofBytes := id, movedFrom := id }

/-- The counters and addresses of the object, without contents and log. -/
def header {α : Type} (v : vector α) : Nat × Nat × Nat × Nat × Nat :=
  (v.m_data, v.m_start, v.m_mappingSize, v.m_capacity, v.m_size)

/-- The calls `push_back(val)` for the given values, each with the answer the
OS gives if that call asks it. -/
def push_ops {α : Type} (pushes : List (α × Bool)) : List (Op α) :=
  pushes.map (fun p => Op.push_back p.1 p.2)

/-- The object `vector<uint64_t> v{memory_size{1024*1024*1024}}` of the test
(line 224) when `mmap` returns address `1 <<< 32` over zeroed pages and the
OS grants the commit. -/
def fresh_u64 : vector Nat :=
  { m_data := 4294967296, m_start := 4294967296, m_mappingSize := 1073741824,
    m_capacity := 64, m_size := 0, mem := fun _ => 0,
    log := [Event.mprotect 4294967296 512 Prot.PROT_READ_WRITE] }

/-- An object of `vector<uint64_t>` whose 512 reserved bytes are all in use. -/
def full_u64 : vector Nat :=
  { m_data := 4294967296, m_start := 4294967296, m_mappingSize := 512,
    m_capacity := 64, m_size := 64, mem := fun i => i,
    log := [Event.mprotect 4294967296 512 Prot.PROT_READ_WRITE] }

/-- Protection of the byte at offset `b` of the mapping after the events of
`log`, which are all on the object's own mapping. `mmap` (line 15) maps the
range `PROT_NONE`; a granted `mprotect(m_data, len, prot)` sets the protection
of every page that holds a byte below `len`; the last such call decides. -/
def prot_at (page_size : Nat) (log : List Event) (b : Nat) : Prot :=
  log.foldl (fun cur ev =>
    match ev with
    | Event.mprotect _ len p => if b / page_size * page_size < len then p else cur
    | Event.munmap _ _ => Prot.PROT_NONE
    | _ => cur) Prot.PROT_NONE

/-- True when every byte of slot `i` is readable and writable. -/
def write_allowed {α : Type} (P : Params α) (v : vector α) (i : Nat) : Bool :=
  (List.range P.sizeofT).all (fun k =>
    decide (prot_at P.page_size v.log (i * P.sizeofT + k) = Prot.PROT_READ_WRITE))

/-- An attempted write `m_start[i] = x` through a reference or iterator (as on
line 266) under the page protection: `none` when the hardware rejects it. -/
def write_element {α : Type} (P : Params α) (v : vector α) (i : Nat) (x : α) :
    Option (vector α) :=
  if write_allowed P v i then some { v with mem := store v.mem i x } else none

/-- Instantiation `vector<std::string>` of the test (line 257): 32 bytes, not
trivially copyable, move assignable, not trivially destructible; a moved-from
string is empty. -/
def P_string : Params String :=
  { page_size := 4096, sizeofT := 32, num := 3, den := 2,
    is_trivially_copyable := false, is_move_assignable := true,
    is_trivially_destructible := false,
    toBytes := fun _ => [], ofBytes := fun _ => "", movedFrom := fun _ => "" }

/-- The object `vector<std::string> strings{memory_size{1024*1024*1024}}` of
the test (line 257) when the OS grants the commit. -/
def fresh_string : vector String :=
  { m_data := 8589934592, m_start := 8589934592, m_mappingSize := 1073741824,
    m_capacity := 4, m_size := 0, mem := fun _ => "",
    log := [Event.mprotect 8589934592 128 Prot.PROT_READ_WRITE] }

/-- The object `vector<uint64_t> v{memory_size{1024*1024}}` when `mmap`
returns address `1 <<< 32` over zeroed pages and the OS grants the commit. -/
def one_mib_u64 : vector Nat :=
  { m_data := 4294967296, m_start := 4294967296, m_mappingSize := 1048576,
    m_capacity := 64, m_size := 0, mem := fun _ => 0,
    log := [Event.mprotect 4294967296 512 Prot.PROT_READ_WRITE] }

/-- The capacities `vector<uint64_t>` takes in a 1 MiB reservation: 64 at
construction, then `c * 8 * 3 / 2 / 8` while `c * 8 * 3 / 2 <= 1048576`. -/
def growth_caps : List Nat :=
  [64, 96, 144, 216, 324, 486, 729, 1093, 1639, 2458, 3687, 5530, 8295, 12442,
    18663, 27994, 41991, 62986, 94479]

/-- An object of `vector<uint64_t>` in a 1 GiB reservation whose 64 committed
slots are all in use. -/
def brim_u64 : vector Nat :=
  { m_data := 4294967296, m_start := 4294967296, m_mappingSize := 1073741824,
    m_capacity := 64, m_size := 64, mem := fun i => i,
    log := [Event.mprotect 4294967296 512 Prot.PROT_READ_WRITE] }

/-! ## Growth: `realloc_cap` and `resize_if_needed` -/

theorem realloc_cap_throw {α : Type} (P : Params α) (v s : vector α) (bytes : Nat)
    (os_ok : Bool) (e : Error) (h : realloc_cap P v bytes os_ok = Result.throw e s) :
    s = v ∧ (bytes > v.m_mappingSize ∨ os_ok = false) := by
  unfold realloc_cap at h
  split_ifs at h with h1 h2
  · injection h with _ hs
    exact ⟨hs.symm, Or.inl h1⟩
  · injection h with _ hs
    exact ⟨hs.symm, Or.inr h2⟩

theorem realloc_cap_ok {α : Type} (P : Params α) (v s : vector α) (bytes : Nat)
    (os_ok : Bool) (h : realloc_cap P v bytes os_ok = Result.ok s) :
    bytes ≤ v.m_mappingSize ∧
    s = { v with
      m_capacity := bytes / P.sizeofT
      log := v.log ++ [Event.mprotect v.m_data bytes Prot.PROT_READ_WRITE] } := by
  unfold realloc_cap at h
  split_ifs at h with h1 h2
  injection h with hs
  exact ⟨Nat.le_of_not_lt h1, hs.symm⟩

theorem resize_if_needed_throw {α : Type} (P : Params α) (v s : vector α)
    (os_ok : Bool) (e : Error) (h : resize_if_needed P v os_ok = Result.throw e s) :
    s = v ∧ v.m_size = v.m_capacity ∧
      ((v.m_capacity * P.sizeofT * P.num) % SIZE_MOD / P.den > v.m_mappingSize ∨
        os_ok = false) := by
  unfold resize_if_needed at h
  split_ifs at h with h1
  have := realloc_cap_throw P v s _ os_ok e h
  exact ⟨this.1, h1, this.2⟩

theorem resize_if_needed_ok {α : Type} (P : Params α) (v s : vector α)
    (os_ok : Bool) (h : resize_if_needed P v os_ok = Result.ok s) :
    s.m_data = v.m_data ∧ s.m_start = v.m_start ∧ s.m_mappingSize = v.m_mappingSize ∧
      s.m_size = v.m_size ∧ s.mem = v.mem ∧
      (v.m_capacity * P.sizeofT ≤ v.m_mappingSize →
        s.m_capacity * P.sizeofT ≤ s.m_mappingSize) := by
  unfold resize_if_needed at h
  split_ifs at h with h1
  · obtain ⟨hb, hs⟩ := realloc_cap_ok P v s _ os_ok h
    subst hs
    refine ⟨rfl, rfl, rfl, rfl, rfl, fun _ => ?_⟩
    exact le_trans (Nat.div_mul_le_self _ _) hb
  · injection h with hs
    subst hs
    exact ⟨rfl, rfl, rfl, rfl, rfl, fun h => h⟩

/-! ## `push_back` and `emplace_back` -/

theorem emplace_back_eq_push_back {α : Type} (P : Params α) (v : vector α) (val : α)
    (os_ok : Bool) : emplace_back P v val os_ok = push_back P v val os_ok := rfl

theorem push_back_throw {α : Type} (P : Params α) (v s : vector α) (val : α)
    (os_ok : Bool) (e : Error) (h : push_back P v val os_ok = Result.throw e s) :
    s = v ∧ v.m_size = v.m_capacity ∧
      ((v.m_capacity * P.sizeofT * P.num) % SIZE_MOD / P.den > v.m_mappingSize ∨
        os_ok = false) := by
  unfold push_back at h
  cases hr : resize_if_needed P v os_ok with
  | ok t => rw [hr] at h; cases h
  | throw e2 t =>
    rw [hr] at h
    injection h with _ hs
    subst hs
    exact resize_if_needed_throw P v t os_ok e2 hr

theorem push_back_ok {α : Type} (P : Params α) (v s : vector α) (val : α)
    (os_ok : Bool) (h : push_back P v val os_ok = Result.ok s) :
    s.m_data = v.m_data ∧ s.m_start = v.m_start ∧ s.m_mappingSize = v.m_mappingSize ∧
      s.m_size = v.m_size + 1 ∧ s.mem = store v.mem v.m_size val ∧
      (v.m_capacity * P.sizeofT ≤ v.m_mappingSize →
        s.m_capacity * P.sizeofT ≤ s.m_mappingSize) := by
  unfold push_back at h
  cases hr : resize_if_needed P v os_ok with
  | throw e2 t => rw [hr] at h; cases h
  | ok t =>
    rw [hr] at h
    injection h with hs
    subst hs
    obtain ⟨h1, h2, h3, h4, h5, h6⟩ := resize_if_needed_ok P v t os_ok hr
    refine ⟨h1, h2, h3, ?_, ?_, h6⟩
    · show t.m_size + 1 = v.m_size + 1
      rw [h4]
    · show store t.mem t.m_size val = store v.mem v.m_size val
      rw [h4, h5]

/-- Whatever the outcome, `push_back` leaves the addresses, the reservation size
and every slot below the old `m_size` alone, and never lowers `m_size`. -/
theorem push_back_state {α : Type} (P : Params α) (v : vector α) (val : α) (os_ok : Bool) :
    (push_back P v val os_ok).state.m_data = v.m_data ∧
      (push_back P v val os_ok).state.m_start = v.m_start ∧
      (push_back P v val os_ok).state.m_mappingSize = v.m_mappingSize ∧
      v.m_size ≤ (push_back P v val os_ok).state.m_size ∧
      (∀ i, i < v.m_size → (push_back P v val os_ok).state.mem i = v.mem i) ∧
      (v.m_capacity * P.sizeofT ≤ v.m_mappingSize →
        (push_back P v val os_ok).state.m_capacity * P.sizeofT ≤
          (push_back P v val os_ok).state.m_mappingSize) := by
  cases hr : push_back P v val os_ok with
  | throw e t =>
    obtain ⟨ht, _⟩ := push_back_throw P v t val os_ok e hr
    subst ht
    exact ⟨rfl, rfl, rfl, le_refl _, fun _ _ => rfl, fun h => h⟩
  | ok t =>
    obtain ⟨h1, h2, h3, h4, h5, h6⟩ := push_back_ok P v t val os_ok hr
    refine ⟨h1, h2, h3, ?_, ?_, h6⟩
    · show v.m_size ≤ t.m_size
      omega
    · intro i hi
      show t.mem i = v.mem i
      rw [h5]
      unfold store
      rw [if_neg (Nat.ne_of_lt hi)]

/-! ## `erase`, `clear`, `freez`, `unfreez`: the counters are not written -/

theorem move_loop_header {α : Type} (P : Params α) (n start next : Nat) (v : vector α) :
    header (move_loop P n start next v) = header v := by
  induction n generalizing start next v with
  | zero => rfl
  | succ n ih =>
    unfold move_loop
    rw [ih]
    rfl

theorem copy_loop_header {α : Type} (n start next : Nat) (v : vector α) :
    header (copy_loop n start next v) = header v := by
  induction n generalizing start next v with
  | zero => rfl
  | succ n ih =>
    unfold copy_loop
    rw [ih]
    rfl

/-- No overload of `erase` writes `m_size`, `m_capacity` or any other counter. -/
theorem erase_header {α : Type} (P : Params α) (v : vector α) (first last : Nat) :
    header (erase P v first last) = header v := by
  unfold erase
  split_ifs
  · rfl
  · unfold erase_move_assign
    rw [move_loop_header]
    rfl
  · unfold erase_copy_assign
    rw [copy_loop_header]
    rfl

theorem freez_header {α : Type} (P : Params α) (v : vector α) (os_ok : Bool) :
    header (freez P v os_ok).state = header v := by
  unfold freez
  split_ifs <;> rfl

theorem unfreez_header {α : Type} (P : Params α) (v : vector α) (os_ok : Bool) :
    header (unfreez P v os_ok).state = header v := by
  unfold unfreez
  split_ifs <;> rfl

theorem header_eq {α : Type} (v w : vector α) (h : header v = header w) :
    v.m_data = w.m_data ∧ v.m_start = w.m_start ∧ v.m_mappingSize = w.m_mappingSize ∧
      v.m_capacity = w.m_capacity ∧ v.m_size = w.m_size := by
  unfold header at h
  simp only [Prod.mk.injEq] at h
  exact h

/-- The copy-assigning loop moves the `n` slots from `next` on down to `start`
and writes no other slot. -/
theorem copy_loop_mem {α : Type} (n start next : Nat) (v : vector α) (h : start ≤ next)
    (i : Nat) :
    (copy_loop n start next v).mem i =
      if start ≤ i ∧ i < start + n then v.mem (next + (i - start)) else v.mem i := by
  induction n generalizing start next v with
  | zero =>
    unfold copy_loop
    rw [if_neg (by omega)]
  | succ n ih =>
    unfold copy_loop
    rw [ih (start + 1) (next + 1) _ (by omega)]
    show (if start + 1 ≤ i ∧ i < start + 1 + n
        then store v.mem start (v.mem next) (next + 1 + (i - (start + 1)))
        else store v.mem start (v.mem next) i) = _
    unfold store
    by_cases h1 : start + 1 ≤ i ∧ i < start + 1 + n
    · rw [if_pos h1, if_neg (by omega), if_pos (by omega)]
      congr 1
      omega
    · rw [if_neg h1]
      by_cases h2 : i = start
      · rw [if_pos h2, if_pos (by omega)]
        congr 1
        omega
      · rw [if_neg h2, if_neg (by omega)]

/-- The move-assigning loop with `start < next` gives slot `start + j` the
former value of slot `next + j` for every `j < n`, and writes no slot below
`start`. -/
theorem move_loop_mem {α : Type} (P : Params α) (n start next : Nat) (v : vector α)
    (h : start < next) (i : Nat) (hi : i < start + n) :
    (move_loop P n start next v).mem i =
      if start ≤ i then v.mem (next + (i - start)) else v.mem i := by
  induction n generalizing start next v with
  | zero =>
    unfold move_loop
    rw [if_neg (by omega)]
  | succ n ih =>
    unfold move_loop
    rw [ih (start + 1) (next + 1) _ (by omega) (by omega)]
    show (if start + 1 ≤ i
        then store (store v.mem start (v.mem next)) next (P.movedFrom (v.mem next))
          (next + 1 + (i - (start + 1)))
        else store (store v.mem start (v.mem next)) next (P.movedFrom (v.mem next)) i) = _
    unfold store
    by_cases h1 : start + 1 ≤ i
    · rw [if_pos h1, if_neg (by omega), if_neg (by omega), if_pos (by omega)]
      congr 1
      omega
    · rw [if_neg h1, if_neg (by omega)]
      by_cases h2 : i = start
      · rw [if_pos h2, if_pos (by omega)]
        congr 1
        omega
      · rw [if_neg h2, if_neg (by omega)]

/-- The copy-assigning `erase` keeps the slots below `first` and gives slot
`first + j` the former value of slot `last + j` for every `j < end() - last`. -/
theorem erase_copy_assign_mem {α : Type} (P : Params α) (v : vector α) (first last : Nat)
    (h : first ≤ last) :
    (∀ i, i < first → (erase_copy_assign P v first last).mem i = v.mem i) ∧
      ∀ j, j < vend v - last →
        (erase_copy_assign P v first last).mem (first + j) = v.mem (last + j) := by
  unfold erase_copy_assign
  refine ⟨fun i hi => ?_, fun j hj => ?_⟩
  · rw [copy_loop_mem _ _ _ _ h, if_neg (by omega)]
  · rw [copy_loop_mem _ _ _ _ h, if_pos (by omega)]
    show v.mem (last + (first + j - first)) = _
    congr 1
    omega

/-- The move-assigning `erase` of a non-empty range keeps the slots below
`first` and gives slot `first + j` the former value of slot `last + j` for
every `j < end() - last`. -/
theorem erase_move_assign_mem {α : Type} (P : Params α) (v : vector α) (first last : Nat)
    (h : first < last) :
    (∀ i, i < first → (erase_move_assign P v first last).mem i = v.mem i) ∧
      ∀ j, j < vend v - last →
        (erase_move_assign P v first last).mem (first + j) = v.mem (last + j) := by
  unfold erase_move_assign
  refine ⟨fun i hi => ?_, fun j hj => ?_⟩
  · by_cases hn : 0 < vend v - last
    · rw [move_loop_mem P _ _ _ _ h i (by omega), if_neg (by omega)]
    · have h0 : vend v - last = 0 := by omega
      rw [h0]
      rfl
  · rw [move_loop_mem P _ _ _ _ h (first + j) (by omega), if_pos (by omega)]
    show v.mem (last + (first + j - first)) = _
    congr 1
    omega

/-- Every call keeps `m_mappingSize` and keeps the committed bytes within it. -/
theorem step_capacity_bytes {α : Type} (P : Params α) (v : vector α) (op : Op α)
    (h : v.m_capacity * P.sizeofT ≤ v.m_mappingSize) :
    (step P v op).state.m_mappingSize = v.m_mappingSize ∧
      (step P v op).state.m_capacity * P.sizeofT ≤ (step P v op).state.m_mappingSize := by
  cases op with
  | push_back val os_ok =>
    obtain ⟨_, _, h3, _, _, h6⟩ := push_back_state P v val os_ok
    exact ⟨h3, h6 h⟩
  | emplace_back val os_ok =>
    obtain ⟨_, _, h3, _, _, h6⟩ := push_back_state P v val os_ok
    exact ⟨h3, h6 h⟩
  | erase first last =>
    obtain ⟨_, _, h3, h4, _⟩ := header_eq _ _ (erase_header P v first last)
    show (erase P v first last).m_mappingSize = _ ∧
      (erase P v first last).m_capacity * _ ≤ (erase P v first last).m_mappingSize
    rw [h3, h4]
    exact ⟨rfl, h⟩
  | erase_one it =>
    obtain ⟨_, _, h3, h4, _⟩ := header_eq _ _ (erase_header P v it (it + 1))
    show (erase P v it (it + 1)).m_mappingSize = _ ∧
      (erase P v it (it + 1)).m_capacity * _ ≤ (erase P v it (it + 1)).m_mappingSize
    rw [h3, h4]
    exact ⟨rfl, h⟩
  | clear =>
    obtain ⟨_, _, h3, h4, _⟩ := header_eq _ _ (erase_header P v (vbegin v) (vend v))
    show (erase P v (vbegin v) (vend v)).m_mappingSize = _ ∧
      (erase P v (vbegin v) (vend v)).m_capacity * _ ≤
        (erase P v (vbegin v) (vend v)).m_mappingSize
    rw [h3, h4]
    exact ⟨rfl, h⟩
  | freez os_ok =>
    obtain ⟨_, _, h3, h4, _⟩ := header_eq _ _ (freez_header P v os_ok)
    show (freez P v os_ok).state.m_mappingSize = _ ∧
      (freez P v os_ok).state.m_capacity * _ ≤ (freez P v os_ok).state.m_mappingSize
    rw [h3, h4]
    exact ⟨rfl, h⟩
  | unfreez os_ok =>
    obtain ⟨_, _, h3, h4, _⟩ := header_eq _ _ (unfreez_header P v os_ok)
    show (unfreez P v os_ok).state.m_mappingSize = _ ∧
      (unfreez P v os_ok).state.m_capacity * _ ≤ (unfreez P v os_ok).state.m_mappingSize
    rw [h3, h4]
    exact ⟨rfl, h⟩

theorem run_capacity_bytes {α : Type} (P : Params α) (ops : List (Op α)) (v : vector α)
    (h : v.m_capacity * P.sizeofT ≤ v.m_mappingSize) :
    (run P v ops).m_mappingSize = v.m_mappingSize ∧
      (run P v ops).m_capacity * P.sizeofT ≤ (run P v ops).m_mappingSize := by
  induction ops generalizing v with
  | nil => exact ⟨rfl, h⟩
  | cons op ops ih =>
    obtain ⟨h1, h2⟩ := step_capacity_bytes P v op h
    obtain ⟨h3, h4⟩ := ih (step P v op).state h2
    exact ⟨by show (run P (step P v op).state ops).m_mappingSize = _; rw [h3, h1], h4⟩

/-! ## The constructor -/

/-- A constructor that returns an object returns this one. -/
theorem ctor_memory_size_ok {α : Type} (P : Params α) (memoryInBytes : Nat)
    (mmap_result : Option Nat) (mem0 : Nat → α) (os_ok : Bool) (v0 : vector α)
    (h : vector.ctor_memory_size P memoryInBytes mmap_result mem0 os_ok = Except.ok v0) :
    P.sizeofT < P.page_size ∧ P.page_size / P.sizeofT ≤ memoryInBytes ∧
      mmap_result = some v0.m_data ∧ v0.m_start = v0.m_data ∧
      v0.m_mappingSize = memoryInBytes ∧ v0.m_size = 0 ∧
      v0.m_capacity = P.page_size / P.sizeofT / P.sizeofT ∧ v0.mem = mem0 := by
  unfold vector.ctor_memory_size at h
  split_ifs at h with h1
  cases mmap_result with
  | none => cases h
  | some addr =>
    simp only at h
    split at h
    · cases h
    · rename_i s hs
      obtain ⟨hb, hs2⟩ := realloc_cap_ok P _ s _ os_ok hs
      injection h with hv
      subst hv
      subst hs2
      exact ⟨h1, hb, rfl, rfl, rfl, rfl, rfl, rfl⟩

/-- The element-count constructor is the byte-budget constructor at the budget
`elements * sizeof(T)` computed in `size_t`. -/
theorem ctor_element_count_eq {α : Type} (P : Params α) (elements : Nat)
    (mmap_result : Option Nat) (mem0 : Nat → α) (os_ok : Bool) :
    vector.ctor_element_count P elements mmap_result mem0 os_ok =
      vector.ctor_memory_size P ((elements * P.sizeofT) % SIZE_MOD) mmap_result mem0 os_ok :=
  rfl

/-! ## Sequences of `push_back` -/

theorem push_all_spec {α : Type} (P : Params α) (pushes : List (α × Bool)) (v w : vector α)
    (h : push_all P v pushes = some w) :
    w.m_size = v.m_size + pushes.length ∧
      (∀ i, i < v.m_size → w.mem i = v.mem i) ∧
      ∀ i (hi : i < pushes.length), w.mem (v.m_size + i) = (pushes.get ⟨i, hi⟩).1 := by
  induction pushes generalizing v with
  | nil =>
    injection h with hw
    subst hw
    exact ⟨rfl, fun _ _ => rfl, fun i hi => absurd hi (Nat.not_lt_zero i)⟩
  | cons p rest ih =>
    obtain ⟨val, os_ok⟩ := p
    unfold push_all at h
    cases hr : push_back P v val os_ok with
    | throw e t => rw [hr] at h; cases h
    | ok t =>
      rw [hr] at h
      obtain ⟨_, _, _, h4, h5, _⟩ := push_back_ok P v t val os_ok hr
      obtain ⟨i1, i2, i3⟩ := ih t h
      refine ⟨?_, ?_, ?_⟩
      · rw [i1, h4, List.length_cons]
        omega
      · intro i hi
        rw [i2 i (by omega), h5]
        unfold store
        rw [if_neg (Nat.ne_of_lt hi)]
      · intro i hi
        cases i with
        | zero =>
          rw [Nat.add_zero, i2 v.m_size (by omega), h5]
          unfold store
          rw [if_pos rfl]
          rfl
        | succ j =>
          have hj : j < rest.length := by
            rw [List.length_cons] at hi
            omega
          have := i3 j hj
          rw [h4] at this
          have e : v.m_size + (j + 1) = v.m_size + 1 + j := by omega
          rw [e, this]
          rfl

theorem run_push_ops_stable {α : Type} (P : Params α) (pushes : List (α × Bool))
    (v : vector α) :
    (run P v (push_ops pushes)).m_start = v.m_start ∧
      (run P v (push_ops pushes)).m_data = v.m_data ∧
      v.m_size ≤ (run P v (push_ops pushes)).m_size ∧
      ∀ i, i < v.m_size → (run P v (push_ops pushes)).mem i = v.mem i := by
  induction pushes generalizing v with
  | nil => exact ⟨rfl, rfl, le_refl _, fun _ _ => rfl⟩
  | cons p rest ih =>
    obtain ⟨h1, h2, _, h4, h5, _⟩ := push_back_state P v p.1 p.2
    obtain ⟨i1, i2, i3, i4⟩ := ih (push_back P v p.1 p.2).state
    show (run P (push_back P v p.1 p.2).state (push_ops rest)).m_start = _ ∧
      (run P (push_back P v p.1 p.2).state (push_ops rest)).m_data = _ ∧
      _ ≤ (run P (push_back P v p.1 p.2).state (push_ops rest)).m_size ∧
      ∀ i, i < v.m_size → (run P (push_back P v p.1 p.2).state (push_ops rest)).mem i = _
    refine ⟨by rw [i1, h2], by rw [i2, h1], le_trans h4 i3, fun i hi => ?_⟩
    rw [i4 i (lt_of_lt_of_le hi h4), h5 i hi]

/-! ## The claims -/

/-- C1: from a freshly constructed container, if every one of the `n` calls
`push_back(v1) ... push_back(vn)` returns normally, then `size() == n` and
`container[i]` is `v(i+1)` for every `i < n`. -/
theorem push_back_sequence_size_and_contents {α : Type} (P : Params α)
    (memoryInBytes : Nat) (mmap_result : Option Nat) (mem0 : Nat → α) (os_ok : Bool)
    (v0 v : vector α) (pushes : List (α × Bool))
    (hctor : vector.ctor_memory_size P memoryInBytes mmap_result mem0 os_ok = Except.ok v0)
    (hpush : push_all P v0 pushes = some v) :
    size v = pushes.length ∧
      ∀ i (hi : i < pushes.length), operator_index v i = some (pushes.get ⟨i, hi⟩).1 := by
  obtain ⟨_, _, _, _, _, hsize, _, _⟩ :=
    ctor_memory_size_ok P memoryInBytes mmap_result mem0 os_ok v0 hctor
  obtain ⟨h1, _, h3⟩ := push_all_spec P pushes v0 v hpush
  rw [hsize, Nat.zero_add] at h1
  refine ⟨h1, fun i hi => ?_⟩
  have hv : valid v i = true := by
    unfold valid
    rw [h1]
    simp [hi]
  have := h3 i hi
  rw [hsize, Nat.zero_add] at this
  unfold operator_index
  rw [if_pos hv, this]

/-- Witness for C1: the three calls of the test (lines 227-230) on
`vector<uint64_t>`. -/
theorem push_back_sequence_size_and_contents_witness :
    vector.ctor_memory_size P_u64 1073741824 (some 4294967296) (fun _ => 0) true =
        Except.ok fresh_u64 ∧
      ∃ v : vector Nat, push_all P_u64 fresh_u64 [(0, true), (1, true), (2, true)] = some v ∧
        size v = 3 ∧ operator_index v 0 = some 0 ∧ operator_index v 1 = some 1 ∧
        operator_index v 2 = some 2 := by
  have hctor : vector.ctor_memory_size P_u64 1073741824 (some 4294967296) (fun _ => 0) true =
      Except.ok fresh_u64 := rfl
  refine ⟨hctor, _, rfl, ?_⟩
  have h := push_back_sequence_size_and_contents P_u64 1073741824 (some 4294967296)
    (fun _ => 0) true fresh_u64 _ [(0, true), (1, true), (2, true)] hctor rfl
  exact ⟨h.1, h.2 0 (by decide), h.2 1 (by decide), h.2 2 (by decide)⟩

/-- C2 (the code departs from it): on `vector<uint64_t>` holding `0, 1, 2`,
`erase(begin(), begin() + 1)` passes `end() - last == 2` to `memmove` as a
byte count, so only two bytes move: index 1 still holds `1`, not the former
element `2` of index 2. -/
theorem erase_memmove_counts_elements_as_bytes :
    ∃ v3 : vector Nat,
      push_all P_u64 fresh_u64 [(0, true), (1, true), (2, true)] = some v3 ∧
      operator_index v3 2 = some 2 ∧
      operator_index (erase P_u64 v3 0 1) 0 = some 1 ∧
      operator_index (erase P_u64 v3 0 1) 1 = some 1 ∧
      operator_index (erase P_u64 v3 0 1) 1 ≠ operator_index v3 2 :=
  ⟨_, rfl, by decide, by decide, by decide, by decide⟩

/-- C3 (the code departs from it): on `vector<uint64_t>` holding `0, 1, 2`,
`erase(begin(), begin() + 1)` and `erase(begin())` leave `size() == 3`; no
overload of `erase` writes `m_size`. -/
theorem erase_leaves_size_unchanged :
    ∃ v3 : vector Nat,
      push_all P_u64 fresh_u64 [(0, true), (1, true), (2, true)] = some v3 ∧
      size v3 = 3 ∧ size (erase P_u64 v3 0 1) = 3 ∧ size (erase_one P_u64 v3 0) = 3 ∧
      ∀ (β : Type) (P : Params β) (v : vector β) (first last : Nat),
        size (erase P v first last) = size v :=
  ⟨_, rfl, rfl, rfl, rfl, fun _ P v first last =>
    (header_eq _ _ (erase_header P v first last)).2.2.2.2⟩

/-- C4 (the code departs from it): on `vector<uint64_t>` holding `0, 1, 2`,
`clear()` keeps `capacity()` but leaves `size() == 3`, not 0. -/
theorem clear_leaves_size_unchanged :
    ∃ v3 : vector Nat,
      push_all P_u64 fresh_u64 [(0, true), (1, true), (2, true)] = some v3 ∧
      size v3 = 3 ∧ size (clear P_u64 v3) = 3 ∧
      capacity (clear P_u64 v3) = capacity v3 :=
  ⟨_, rfl, rfl, rfl, rfl⟩

/-- C5 (the code departs from it): `vector<uint64_t>` with 4096-byte pages is
constructed with `size() == 0` and `capacity() == 64`, while
`pageSize / sizeof(T)` is 512: the constructor hands the element count
`page_size / sizeof(T)` to `realloc_cap` as a byte count. -/
theorem ctor_commits_element_count_as_bytes :
    vector.ctor_memory_size P_u64 1073741824 (some 4294967296) (fun _ => 0) true =
        Except.ok fresh_u64 ∧
      size fresh_u64 = 0 ∧ capacity fresh_u64 = 64 ∧
      P_u64.page_size / P_u64.sizeofT = 512 :=
  ⟨rfl, rfl, rfl, rfl⟩

/-- C6 (the code departs from it): with 100-byte elements and 4096-byte pages
the container is constructed with `capacity() == 0`; the growth step of the
first `push_back` commits `0 * 100 * 3 / 2 == 0` bytes, and the call returns
with `size() == 1 > capacity() == 0`. -/
theorem push_back_size_exceeds_capacity :
    ∃ v0 v1 : vector (List Nat),
      vector.ctor_memory_size (P_blob 100) 1048576 (some 4294967296) (fun _ => []) true =
        Except.ok v0 ∧
      run (P_blob 100) v0 [Op.push_back (List.replicate 100 0) true] = v1 ∧
      (push_back (P_blob 100) v0 (List.replicate 100 0) true).isOk = true ∧
      capacity v0 = 0 ∧ size v1 = 1 ∧ capacity v1 = 0 ∧ ¬ size v1 ≤ capacity v1 :=
  ⟨_, _, rfl, rfl, rfl, rfl, rfl, rfl, by decide⟩

/-- C7: in every state reached from a successful construction by calls of
`push_back`, `emplace_back`, `erase`, `clear`, `freez` and `unfreez`,
`capacity() * sizeof(T) <= mappingSize`, the reservation size is the byte
budget of the constructor, and `capacity() <= mappingSize / sizeof(T)`. -/
theorem capacity_bytes_within_mapping {α : Type} (P : Params α)
    (memoryInBytes : Nat) (mmap_result : Option Nat) (mem0 : Nat → α) (os_ok : Bool)
    (v0 : vector α) (ops : List (Op α))
    (hctor : vector.ctor_memory_size P memoryInBytes mmap_result mem0 os_ok = Except.ok v0) :
    (run P v0 ops).m_mappingSize = memoryInBytes ∧
      capacity (run P v0 ops) * P.sizeofT ≤ (run P v0 ops).m_mappingSize ∧
      (0 < P.sizeofT → capacity (run P v0 ops) ≤ (run P v0 ops).m_mappingSize / P.sizeofT) := by
  obtain ⟨_, hb, _, _, hmap, _, hcap, _⟩ :=
    ctor_memory_size_ok P memoryInBytes mmap_result mem0 os_ok v0 hctor
  have h0 : v0.m_capacity * P.sizeofT ≤ v0.m_mappingSize := by
    rw [hcap, hmap]
    exact le_trans (Nat.div_mul_le_self _ _) hb
  obtain ⟨h1, h2⟩ := run_capacity_bytes P ops v0 h0
  refine ⟨by rw [h1, hmap], h2, fun hs => ?_⟩
  exact (Nat.le_div_iff_mul_le hs).mpr h2

/-- Witness for C7: the `vector<uint64_t>` of the test after a push, an erase,
a freeze, an unfreeze, an emplace and a clear. -/
theorem capacity_bytes_within_mapping_witness :
    vector.ctor_memory_size P_u64 1073741824 (some 4294967296) (fun _ => 0) true =
        Except.ok fresh_u64 ∧
      capacity (run P_u64 fresh_u64
        [Op.push_back 7 true, Op.erase 0 1, Op.freez true, Op.unfreez true,
          Op.emplace_back 8 true, Op.clear]) * 8 ≤ 1073741824 := by
  have hctor : vector.ctor_memory_size P_u64 1073741824 (some 4294967296) (fun _ => 0) true =
      Except.ok fresh_u64 := rfl
  have h := capacity_bytes_within_mapping P_u64 1073741824 (some 4294967296) (fun _ => 0)
    true fresh_u64
    [Op.push_back 7 true, Op.erase 0 1, Op.freez true, Op.unfreez true,
      Op.emplace_back 8 true, Op.clear] hctor
  refine ⟨hctor, ?_⟩
  have h2 := h.2.1
  rw [h.1] at h2
  exact h2

/-- C8 (the code departs from it): with 2000-byte elements and a reservation
of one 4096-byte page, `mappingSize / sizeof(T)` is 2, yet three `push_back`
calls all return normally and leave `size() == 3`: capacity is 0 from the
start, the only growth request is for 0 bytes, and later calls find
`m_size != m_capacity` and request nothing. -/
theorem push_back_past_reservation_succeeds :
    ∃ v0 v3 : vector (List Nat),
      vector.ctor_memory_size (P_blob 2000) 4096 (some 4294967296) (fun _ => []) true =
        Except.ok v0 ∧
      push_all (P_blob 2000) v0
        [(List.replicate 2000 1, true), (List.replicate 2000 2, true),
          (List.replicate 2000 3, true)] = some v3 ∧
      v3.m_mappingSize / (P_blob 2000).sizeofT = 2 ∧ size v3 = 3 ∧ capacity v3 = 0 :=
  ⟨_, _, rfl, rfl, rfl, rfl, rfl⟩

/-- C9: when `push_back` or `emplace_back` throws, which happens exactly on a
full container whose growth target exceeds `mappingSize` or whose commit the
OS refuses, the object is as before the call: same `size()`, same
`capacity()`, same elements. -/
theorem push_back_failure_leaves_state {α : Type} (P : Params α) (v s : vector α)
    (val : α) (os_ok : Bool) (e : Error)
    (h : push_back P v val os_ok = Result.throw e s ∨
      emplace_back P v val os_ok = Result.throw e s) :
    s = v ∧ size s = size v ∧ capacity s = capacity v ∧
      (∀ i, operator_index s i = operator_index v i) ∧
      size v = capacity v ∧
      ((capacity v * P.sizeofT * P.num) % SIZE_MOD / P.den > v.m_mappingSize ∨
        os_ok = false) := by
  have hp : push_back P v val os_ok = Result.throw e s := by
    cases h with
    | inl h => exact h
    | inr h => rw [emplace_back_eq_push_back] at h; exact h
  obtain ⟨h1, h2, h3⟩ := push_back_throw P v s val os_ok e hp
  subst h1
  exact ⟨rfl, rfl, rfl, fun _ => rfl, h2, h3⟩

/-- Witness for C9: a `vector<uint64_t>` whose 512 reserved bytes hold 64
elements; the growth target of 768 bytes exceeds the reservation. -/
theorem push_back_failure_leaves_state_witness :
    push_back P_u64 full_u64 99 true = Result.throw Error.bad_alloc full_u64 ∧
      size full_u64 = 64 ∧ capacity full_u64 = 64 ∧
      (64 * 8 * 3) % SIZE_MOD / 2 > 512 := by
  have hthrow : push_back P_u64 full_u64 99 true = Result.throw Error.bad_alloc full_u64 := rfl
  have h := push_back_failure_leaves_state P_u64 full_u64 full_u64 99 true Error.bad_alloc
    (Or.inl hthrow)
  refine ⟨hthrow, h.2.1, h.2.2.1, ?_⟩
  cases h.2.2.2.2.2 with
  | inl hgt => exact hgt
  | inr hos => cases hos

/-- C10: `m_start` is the address `mmap` returned and no `push_back` changes
it: for every index `k` already appended, every later run of `push_back`
calls, growing or not, returning or throwing, leaves the address of element
`k` and the value read at index `k` as they were. -/
theorem push_back_pointer_stability {α : Type} (P : Params α)
    (memoryInBytes : Nat) (mmap_result : Option Nat) (mem0 : Nat → α) (os_ok : Bool)
    (v0 : vector α) (earlier later : List (α × Bool)) (k : Nat)
    (hctor : vector.ctor_memory_size P memoryInBytes mmap_result mem0 os_ok = Except.ok v0)
    (hk : k < size (run P v0 (push_ops earlier))) :
    mmap_result = some v0.m_start ∧
      (run P v0 (push_ops earlier)).m_start = v0.m_start ∧
      (run P (run P v0 (push_ops earlier)) (push_ops later)).m_start = v0.m_start ∧
      address_of P (run P (run P v0 (push_ops earlier)) (push_ops later)) k =
        address_of P (run P v0 (push_ops earlier)) k ∧
      operator_index (run P (run P v0 (push_ops earlier)) (push_ops later)) k =
        operator_index (run P v0 (push_ops earlier)) k := by
  obtain ⟨_, _, hm, hs, _, _, _, _⟩ :=
    ctor_memory_size_ok P memoryInBytes mmap_result mem0 os_ok v0 hctor
  obtain ⟨a1, _, _, _⟩ := run_push_ops_stable P earlier v0
  obtain ⟨b1, _, b3, b4⟩ := run_push_ops_stable P later (run P v0 (push_ops earlier))
  have hk2 : k < (run P v0 (push_ops earlier)).m_size := hk
  refine ⟨by rw [hm, hs], a1, by rw [b1, a1], ?_, ?_⟩
  · unfold address_of
    rw [b1]
  · have hv1 : valid (run P v0 (push_ops earlier)) k = true := by
      unfold valid
      simp [hk2]
    have hv2 : valid (run P (run P v0 (push_ops earlier)) (push_ops later)) k = true := by
      unfold valid
      simp [lt_of_lt_of_le hk2 b3]
    unfold operator_index
    rw [if_pos hv1, if_pos hv2, b4 k hk2]

/-- Witness for C10: on the `vector<uint64_t>` of the test, element 0 is
appended, then 70 further calls follow, the 64th of which grows the capacity
from 64 to 96. -/
theorem push_back_pointer_stability_witness :
    address_of P_u64 (run P_u64 (run P_u64 fresh_u64 (push_ops [(5, true)]))
        (push_ops (List.replicate 70 (6, true)))) 0 = 4294967296 ∧
      operator_index (run P_u64 (run P_u64 fresh_u64 (push_ops [(5, true)]))
        (push_ops (List.replicate 70 (6, true)))) 0 = some 5 := by
  have hctor : vector.ctor_memory_size P_u64 1073741824 (some 4294967296) (fun _ => 0) true =
      Except.ok fresh_u64 := rfl
  have h := push_back_pointer_stability P_u64 1073741824 (some 4294967296) (fun _ => 0) true
    fresh_u64 [(5, true)] (List.replicate 70 (6, true)) 0 hctor (by decide)
  refine ⟨?_, ?_⟩
  · rw [h.2.2.2.1]
    rfl
  · rw [h.2.2.2.2]
    rfl

/-! ## Growth events in detail -/

/-- The growth target of `resize_if_needed`, in bytes. -/
theorem push_back_ok_growth {α : Type} (P : Params α) (v w : vector α) (val : α)
    (os_ok : Bool) (h : push_back P v val os_ok = Result.ok w)
    (hsz : v.m_size = v.m_capacity) :
    (v.m_capacity * P.sizeofT * P.num) % SIZE_MOD / P.den ≤ v.m_mappingSize ∧
      w.m_capacity = (v.m_capacity * P.sizeofT * P.num) % SIZE_MOD / P.den / P.sizeofT ∧
      w.m_size = v.m_size + 1 ∧
      w.log = v.log ++
        [Event.mprotect v.m_data ((v.m_capacity * P.sizeofT * P.num) % SIZE_MOD / P.den)
          Prot.PROT_READ_WRITE, Event.construct v.m_size] := by
  unfold push_back at h
  cases hr : resize_if_needed P v os_ok with
  | throw e2 t => rw [hr] at h; cases h
  | ok t =>
    rw [hr] at h
    injection h with hs
    subst hs
    unfold resize_if_needed at hr
    rw [if_pos hsz] at hr
    obtain ⟨hb, ht⟩ := realloc_cap_ok P v t _ os_ok hr
    subst ht
    refine ⟨hb, rfl, rfl, ?_⟩
    show (v.log ++ [_]) ++ [_] = _
    rw [List.append_assoc]
    rfl

theorem push_back_ok_no_growth {α : Type} (P : Params α) (v w : vector α) (val : α)
    (os_ok : Bool) (h : push_back P v val os_ok = Result.ok w)
    (hsz : v.m_size ≠ v.m_capacity) :
    w.m_capacity = v.m_capacity ∧ w.m_size = v.m_size + 1 ∧
      w.log = v.log ++ [Event.construct v.m_size] := by
  unfold push_back at h
  unfold resize_if_needed at h
  rw [if_neg hsz] at h
  injection h with hs
  subst hs
  exact ⟨rfl, rfl, rfl⟩

/-- With the OS granting the request, the only exception of `push_back` is
`std::bad_alloc`. -/
theorem push_back_throw_granted {α : Type} (P : Params α) (v s : vector α) (val : α)
    (e : Error) (h : push_back P v val true = Result.throw e s) :
    e = Error.bad_alloc ∧ s = v := by
  obtain ⟨hs, hsz, hor⟩ := push_back_throw P v s val true e h
  have hgt : (v.m_capacity * P.sizeofT * P.num) % SIZE_MOD / P.den > v.m_mappingSize := by
    cases hor with
    | inl hgt => exact hgt
    | inr hos => cases hos
  unfold push_back resize_if_needed realloc_cap at h
  rw [if_pos hsz, if_pos hgt] at h
  injection h with he _
  exact ⟨he.symm, hs⟩

/-- A run of `push_back` calls that all return is the run of the same calls. -/
theorem push_all_some_run {α : Type} (P : Params α) (pushes : List (α × Bool))
    (v w : vector α) (h : push_all P v pushes = some w) :
    run P v (push_ops pushes) = w := by
  induction pushes generalizing v with
  | nil =>
    injection h
  | cons p rest ih =>
    obtain ⟨val, os_ok⟩ := p
    unfold push_all at h
    cases hr : push_back P v val os_ok with
    | throw e t => rw [hr] at h; cases h
    | ok t =>
      rw [hr] at h
      show run P (push_back P v val os_ok).state (push_ops rest) = w
      rw [hr]
      exact ih t h

/-- When not every call of the sequence returns, there is a first call that throws. -/
theorem push_all_none_split {α : Type} (P : Params α) (pushes : List (α × Bool))
    (v : vector α) (h : push_all P v pushes = none) :
    ∃ earlier val os_ok later w e s,
      pushes = earlier ++ (val, os_ok) :: later ∧ push_all P v earlier = some w ∧
        push_back P w val os_ok = Result.throw e s := by
  induction pushes generalizing v with
  | nil => cases h
  | cons p rest ih =>
    obtain ⟨val, os_ok⟩ := p
    unfold push_all at h
    cases hr : push_back P v val os_ok with
    | throw e t =>
      exact ⟨[], val, os_ok, rest, v, e, t, rfl, rfl, hr⟩
    | ok t =>
      rw [hr] at h
      obtain ⟨earlier, val2, os2, later, w, e, s, h1, h2, h3⟩ := ih t h
      refine ⟨(val, os_ok) :: earlier, val2, os2, later, w, e, s, ?_, ?_, h3⟩
      · rw [h1]
        rfl
      · unfold push_all
        rw [hr]
        exact h2

/-! ## `vector<uint64_t>` in a 1 MiB reservation -/

theorem growth_caps_step :
    ∀ c ∈ growth_caps, c * 8 * 3 % SIZE_MOD / 2 ≤ 1048576 →
      (c * 8 * 3 % SIZE_MOD / 2 / 8 ∈ growth_caps ∧ c + 1 ≤ c * 8 * 3 % SIZE_MOD / 2 / 8) := by
  decide

theorem growth_caps_bound : ∀ c ∈ growth_caps, c ≤ 94479 := by
  decide

/-- In a 1 MiB reservation every `push_back` on `vector<uint64_t>` keeps the
capacity among `growth_caps` and the size within the capacity. -/
theorem one_mib_push_back_inv (v : vector Nat) (val : Nat) (os_ok : Bool)
    (hm : v.m_mappingSize = 1048576) (hc : v.m_capacity ∈ growth_caps)
    (hs : v.m_size ≤ v.m_capacity) :
    (push_back P_u64 v val os_ok).state.m_mappingSize = 1048576 ∧
      (push_back P_u64 v val os_ok).state.m_capacity ∈ growth_caps ∧
      (push_back P_u64 v val os_ok).state.m_size ≤
        (push_back P_u64 v val os_ok).state.m_capacity := by
  cases hr : push_back P_u64 v val os_ok with
  | throw e t =>
    obtain ⟨ht, _⟩ := push_back_throw P_u64 v t val os_ok e hr
    subst ht
    exact ⟨hm, hc, hs⟩
  | ok t =>
    obtain ⟨_, _, h3, _, _, _⟩ := push_back_ok P_u64 v t val os_ok hr
    show t.m_mappingSize = 1048576 ∧ t.m_capacity ∈ growth_caps ∧ t.m_size ≤ t.m_capacity
    by_cases hsz : v.m_size = v.m_capacity
    · obtain ⟨hb, hcap, hsize, _⟩ := push_back_ok_growth P_u64 v t val os_ok hr hsz
      rw [hm] at hb
      obtain ⟨g1, g2⟩ := growth_caps_step v.m_capacity hc hb
      refine ⟨by rw [h3, hm], ?_, ?_⟩
      · rw [hcap]
        exact g1
      · rw [hcap, hsize, hsz]
        exact g2
    · obtain ⟨hcap, hsize, _⟩ := push_back_ok_no_growth P_u64 v t val os_ok hr hsz
      refine ⟨by rw [h3, hm], by rw [hcap]; exact hc, ?_⟩
      rw [hcap, hsize]
      omega

theorem one_mib_run_inv (pushes : List (Nat × Bool)) (v : vector Nat)
    (hm : v.m_mappingSize = 1048576) (hc : v.m_capacity ∈ growth_caps)
    (hs : v.m_size ≤ v.m_capacity) :
    (run P_u64 v (push_ops pushes)).m_capacity ∈ growth_caps ∧
      (run P_u64 v (push_ops pushes)).m_size ≤ (run P_u64 v (push_ops pushes)).m_capacity := by
  induction pushes generalizing v with
  | nil => exact ⟨hc, hs⟩
  | cons p rest ih =>
    obtain ⟨h1, h2, h3⟩ := one_mib_push_back_inv v p.1 p.2 hm hc hs
    exact ih (push_back P_u64 v p.1 p.2).state h1 h2 h3

/-- After any run of `push_back` calls on `vector<uint64_t>` constructed in a
1 MiB reservation, `size() <= capacity() <= 94479`. -/
theorem one_mib_run_bound (mmap_result : Option Nat) (mem0 : Nat → Nat) (os_ok : Bool)
    (v0 : vector Nat) (pushes : List (Nat × Bool))
    (hctor : vector.ctor_memory_size P_u64 1048576 mmap_result mem0 os_ok = Except.ok v0) :
    size (run P_u64 v0 (push_ops pushes)) ≤ capacity (run P_u64 v0 (push_ops pushes)) ∧
      capacity (run P_u64 v0 (push_ops pushes)) ≤ 94479 := by
  obtain ⟨_, _, _, _, hmap, hsize, hcap, _⟩ :=
    ctor_memory_size_ok P_u64 1048576 mmap_result mem0 os_ok v0 hctor
  have hc : v0.m_capacity ∈ growth_caps := by
    rw [hcap]
    decide
  obtain ⟨h1, h2⟩ := one_mib_run_inv pushes v0 hmap hc (by rw [hsize]; exact Nat.zero_le _)
  exact ⟨h2, growth_caps_bound _ h1⟩

/-- In that setting 130073 calls of `push_back` never all return. -/
theorem one_mib_push_all_none (mmap_result : Option Nat) (mem0 : Nat → Nat) (os_ok : Bool)
    (v0 : vector Nat) (pushes : List (Nat × Bool)) (hlen : pushes.length = 130073)
    (hctor : vector.ctor_memory_size P_u64 1048576 mmap_result mem0 os_ok = Except.ok v0) :
    push_all P_u64 v0 pushes = none := by
  cases hp : push_all P_u64 v0 pushes with
  | none => rfl
  | some w =>
    exfalso
    obtain ⟨_, _, _, _, _, hsize, _, _⟩ :=
      ctor_memory_size_ok P_u64 1048576 mmap_result mem0 os_ok v0 hctor
    obtain ⟨h1, _, _⟩ := push_all_spec P_u64 pushes v0 w hp
    have hrun := push_all_some_run P_u64 pushes v0 w hp
    obtain ⟨b1, b2⟩ := one_mib_run_bound mmap_result mem0 os_ok v0 pushes hctor
    rw [hrun] at b1 b2
    have b1 : w.m_size ≤ w.m_capacity := b1
    have b2 : w.m_capacity ≤ 94479 := b2
    omega

/-! ## Page protection -/

/-- A granted `mprotect` decides the protection of the bytes on the pages it
covers and leaves the others as they were. -/
theorem prot_at_mprotect (page_size : Nat) (log : List Event) (addr len : Nat) (p : Prot)
    (b : Nat) :
    prot_at page_size (log ++ [Event.mprotect addr len p]) b =
      if b / page_size * page_size < len then p else prot_at page_size log b := by
  unfold prot_at
  rw [List.foldl_append]
  rfl

theorem prot_at_mprotect_below (page_size : Nat) (log : List Event) (addr len : Nat)
    (p : Prot) (b : Nat) (hb : b < len) :
    prot_at page_size (log ++ [Event.mprotect addr len p]) b = p := by
  rw [prot_at_mprotect, if_pos (lt_of_le_of_lt (Nat.div_mul_le_self _ _) hb)]

theorem freez_ok {α : Type} (P : Params α) (v w : vector α) (os_ok : Bool)
    (h : freez P v os_ok = Result.ok w) :
    w = { v with
      log := v.log ++
        [Event.mprotect v.m_data ((v.m_capacity * P.sizeofT) % SIZE_MOD) Prot.PROT_READ] } := by
  unfold freez at h
  split_ifs at h
  injection h with hw
  exact hw.symm

theorem unfreez_ok {α : Type} (P : Params α) (v w : vector α) (os_ok : Bool)
    (h : unfreez P v os_ok = Result.ok w) :
    w = { v with
      log := v.log ++
        [Event.mprotect v.m_data ((v.m_capacity * P.sizeofT) % SIZE_MOD)
          Prot.PROT_READ_WRITE] } := by
  unfold unfreez at h
  split_ifs at h
  injection h with hw
  exact hw.symm

/-- A slot one of whose bytes is not read-write rejects the write. -/
theorem write_element_rejected {α : Type} (P : Params α) (v : vector α) (i k : Nat) (x : α)
    (hk : k < P.sizeofT)
    (hp : prot_at P.page_size v.log (i * P.sizeofT + k) ≠ Prot.PROT_READ_WRITE) :
    write_element P v i x = none := by
  have hw : write_allowed P v i = false := by
    unfold write_allowed
    rw [List.all_eq_false]
    exact ⟨k, List.mem_range.mpr hk, by simpa using hp⟩
  unfold write_element
  rw [hw]
  rfl

/-- A slot all of whose bytes are read-write takes the write. -/
theorem write_element_done {α : Type} (P : Params α) (v : vector α) (i : Nat) (x : α)
    (hp : ∀ k, k < P.sizeofT →
      prot_at P.page_size v.log (i * P.sizeofT + k) = Prot.PROT_READ_WRITE) :
    write_element P v i x = some { v with mem := store v.mem i x } := by
  have hw : write_allowed P v i = true := by
    unfold write_allowed
    rw [List.all_eq_true]
    intro k hk
    simpa using hp k (List.mem_range.mp hk)
  unfold write_element
  rw [hw]
  rfl

theorem slot_byte_lt (s c i k : Nat) (hi : i < c) (hk : k < s) : i * s + k < c * s := by
  have h1 : (i + 1) * s ≤ c * s := Nat.mul_le_mul_right s hi
  have h2 : (i + 1) * s = i * s + s := Nat.succ_mul i s
  omega

/-- On an object whose committed byte count is below `SIZE_MOD`, `freez()`
makes every committed byte read-only and `unfreez()` read-write, and neither
writes a counter or a slot. -/
theorem freez_unfreez_prot_of_bound {α : Type} (P : Params α) (v w u : vector α)
    (os1 os2 : Bool) (hs : 0 < P.sizeofT) (hcap : capacity v * P.sizeofT < SIZE_MOD)
    (hf : freez P v os1 = Result.ok w) (hu : unfreez P w os2 = Result.ok u) :
    (∀ b, b < capacity w * P.sizeofT → prot_at P.page_size w.log b = Prot.PROT_READ) ∧
      (∀ i x, i < capacity w → write_element P w i x = none) ∧
      (∀ b, b < capacity u * P.sizeofT →
        prot_at P.page_size u.log b = Prot.PROT_READ_WRITE) ∧
      (∀ i x, i < capacity u →
        write_element P u i x = some { u with mem := store u.mem i x }) ∧
      (size w = size v ∧ capacity w = capacity v ∧ w.mem = v.mem) ∧
      (size u = size v ∧ capacity u = capacity v ∧ u.mem = v.mem) := by
  have hw := freez_ok P v w os1 hf
  subst hw
  have hu2 := unfreez_ok P _ u os2 hu
  subst hu2
  have hmod : (v.m_capacity * P.sizeofT) % SIZE_MOD = v.m_capacity * P.sizeofT :=
    Nat.mod_eq_of_lt hcap
  have hro : ∀ b, b < v.m_capacity * P.sizeofT →
      prot_at P.page_size
        (v.log ++ [Event.mprotect v.m_data ((v.m_capacity * P.sizeofT) % SIZE_MOD)
          Prot.PROT_READ]) b = Prot.PROT_READ := by
    intro b hb
    exact prot_at_mprotect_below _ _ _ _ _ _ (by rw [hmod]; exact hb)
  have hrw : ∀ b, b < v.m_capacity * P.sizeofT →
      prot_at P.page_size
        ((v.log ++ [Event.mprotect v.m_data ((v.m_capacity * P.sizeofT) % SIZE_MOD)
          Prot.PROT_READ]) ++
          [Event.mprotect v.m_data ((v.m_capacity * P.sizeofT) % SIZE_MOD)
            Prot.PROT_READ_WRITE]) b = Prot.PROT_READ_WRITE := by
    intro b hb
    exact prot_at_mprotect_below _ _ _ _ _ _ (by rw [hmod]; exact hb)
  refine ⟨hro, fun i x hi => ?_, hrw, fun i x hi => ?_, ⟨rfl, rfl, rfl⟩, ⟨rfl, rfl, rfl⟩⟩
  · apply write_element_rejected P _ i 0 x hs
    show prot_at P.page_size _ (i * P.sizeofT + 0) ≠ Prot.PROT_READ_WRITE
    rw [hro _ (slot_byte_lt _ _ _ _ hi hs)]
    decide
  · apply write_element_done
    intro k hk
    exact hrw _ (slot_byte_lt _ _ _ _ hi hk)

/-- What `freez()` and `unfreez()` do achieve, in every state reached from a
successful construction: after `freez()` every byte below
`capacity() * sizeof(T)` is read-only and a write to a slot below `capacity()`
is rejected; after a following `unfreez()` those bytes are read-write and such
a write is done; neither call changes `size()`, `capacity()` or an element.
Slots at or above `capacity()` are not covered. -/
theorem freez_unfreez_below_capacity {α : Type} (P : Params α)
    (memoryInBytes : Nat) (mmap_result : Option Nat) (mem0 : Nat → α) (os_ok : Bool)
    (v0 w u : vector α) (ops : List (Op α)) (os1 os2 : Bool)
    (hs : 0 < P.sizeofT) (hB : memoryInBytes < SIZE_MOD)
    (hctor : vector.ctor_memory_size P memoryInBytes mmap_result mem0 os_ok = Except.ok v0)
    (hf : freez P (run P v0 ops) os1 = Result.ok w)
    (hu : unfreez P w os2 = Result.ok u) :
    (∀ b, b < capacity w * P.sizeofT → prot_at P.page_size w.log b = Prot.PROT_READ) ∧
      (∀ i x, i < capacity w → write_element P w i x = none) ∧
      (∀ b, b < capacity u * P.sizeofT →
        prot_at P.page_size u.log b = Prot.PROT_READ_WRITE) ∧
      (∀ i x, i < capacity u →
        write_element P u i x = some { u with mem := store u.mem i x }) ∧
      (size w = size (run P v0 ops) ∧ capacity w = capacity (run P v0 ops) ∧
        w.mem = (run P v0 ops).mem) ∧
      (size u = size (run P v0 ops) ∧ capacity u = capacity (run P v0 ops) ∧
        u.mem = (run P v0 ops).mem) := by
  obtain ⟨_, hb, _, _, hmap, _, hcap, _⟩ :=
    ctor_memory_size_ok P memoryInBytes mmap_result mem0 os_ok v0 hctor
  have h0 : v0.m_capacity * P.sizeofT ≤ v0.m_mappingSize := by
    rw [hcap, hmap]
    exact le_trans (Nat.div_mul_le_self _ _) hb
  obtain ⟨h1, h2⟩ := run_capacity_bytes P ops v0 h0
  rw [h1, hmap] at h2
  exact freez_unfreez_prot_of_bound P (run P v0 ops) w u os1 os2 hs
    (lt_of_le_of_lt h2 hB) hf hu

/-- The `vector<uint64_t>` of the test after one `push_back`, frozen and
unfrozen as on lines 264-265: slot 0, below the capacity 64, cannot be written
in between and can afterwards. -/
theorem freez_unfreez_below_capacity_example :
    write_element P_u64 (freez P_u64 (run P_u64 fresh_u64 [Op.push_back 3 true]) true).state
        0 7 = none ∧
      (write_element P_u64
        (unfreez P_u64 (freez P_u64 (run P_u64 fresh_u64 [Op.push_back 3 true]) true).state
          true).state 0 7).isSome = true := by
  have h := freez_unfreez_below_capacity P_u64 1073741824 (some 4294967296) (fun _ => 0) true
    fresh_u64 (freez P_u64 (run P_u64 fresh_u64 [Op.push_back 3 true]) true).state
    (unfreez P_u64 (freez P_u64 (run P_u64 fresh_u64 [Op.push_back 3 true]) true).state
      true).state
    [Op.push_back 3 true] true true (by decide) (by decide) rfl rfl rfl
  refine ⟨h.2.1 0 7 (by decide), ?_⟩
  rw [h.2.2.2.1 0 7 (by decide)]
  rfl

/-- What happens past the state `freez()` leaves: a `push_back` on a frozen, full
container grows it, and the commit of `realloc_cap` makes the region
read-write again without a call of `unfreez()`. -/
theorem growing_push_back_regrants_write :
    write_element P_u64 (freez P_u64 brim_u64 true).state 0 7 = none ∧
      (push_back P_u64 (freez P_u64 brim_u64 true).state 5 true).isOk = true ∧
      write_allowed P_u64 (push_back P_u64 (freez P_u64 brim_u64 true).state 5 true).state 0 =
        true :=
  ⟨rfl, rfl, rfl⟩

/-- A growth step at ratio 3/2 whose product `c * s * 3` does not wrap in
`size_t` takes a capacity `c >= 2` to `c * 3 / 2 > c`. -/
theorem growth_increases_without_wrap {α : Type} (P : Params α) (v w : vector α) (val : α)
    (os_ok : Bool) (hnum : P.num = 3) (hden : P.den = 2) (hs : 0 < P.sizeofT)
    (hc : 2 ≤ capacity v) (hsz : size v = capacity v)
    (hno : capacity v * P.sizeofT * 3 < SIZE_MOD)
    (hok : push_back P v val os_ok = Result.ok w) :
    capacity v < capacity w ∧ size v < capacity w ∧ size w ≤ capacity w ∧
      w.log = v.log ++
        [Event.mprotect v.m_data (capacity v * P.sizeofT * 3 / 2) Prot.PROT_READ_WRITE,
          Event.construct (size v)] := by
  obtain ⟨_, hcap, hsize, hlog⟩ := push_back_ok_growth P v w val os_ok hok hsz
  rw [hnum, hden] at hcap hlog
  have hno2 : v.m_capacity * P.sizeofT * 3 < SIZE_MOD := hno
  rw [Nat.mod_eq_of_lt hno2] at hcap hlog
  have e : v.m_capacity * P.sizeofT * 3 = v.m_capacity * 3 * P.sizeofT := by ring
  rw [Nat.div_div_eq_div_mul, e, Nat.mul_div_mul_right _ _ hs] at hcap
  have hc2 : 2 ≤ v.m_capacity := hc
  have hsz2 : v.m_size = v.m_capacity := hsz
  refine ⟨?_, ?_, ?_, hlog⟩
  · show v.m_capacity < w.m_capacity
    omega
  · show v.m_size < w.m_capacity
    omega
  · show w.m_size ≤ w.m_capacity
    omega

/-! ## The claims, continued -/

/-- C11 (as amended): with 4096-byte pages, 8-byte elements, ratio 3/2 and a
1 MiB reservation, 130073 consecutive `push_back` calls on a fresh container
do not all return, even with the OS granting every commit: the first call
that throws is preceded only by calls that returned, throws `std::bad_alloc`
and leaves the object as it was; `size()` stays below 130073 and
`capacity() <= 131072` holds after every prefix of the calls. -/
theorem one_mib_scenario_hits_ceiling (mmap_addr : Nat) (mem0 : Nat → Nat)
    (v0 : vector Nat) (pushes : List (Nat × Bool))
    (hlen : pushes.length = 130073) (hos : ∀ p ∈ pushes, p.2 = true)
    (hctor : vector.ctor_memory_size P_u64 1048576 (some mmap_addr) mem0 true =
      Except.ok v0) :
    push_all P_u64 v0 pushes = none ∧
      (∃ earlier val later w,
        pushes = earlier ++ (val, true) :: later ∧ push_all P_u64 v0 earlier = some w ∧
          push_back P_u64 w val true = Result.throw Error.bad_alloc w) ∧
      size (run P_u64 v0 (push_ops pushes)) < 130073 ∧
      ∀ k, capacity (run P_u64 v0 (push_ops (pushes.take k))) ≤ 131072 := by
  have hnone := one_mib_push_all_none (some mmap_addr) mem0 true v0 pushes hlen hctor
  refine ⟨hnone, ?_, ?_, fun k => ?_⟩
  · obtain ⟨earlier, val, os_ok, later, w, e, s, h1, h2, h3⟩ :=
      push_all_none_split P_u64 pushes v0 hnone
    have hmem : (val, os_ok) ∈ pushes := by
      rw [h1]
      exact List.mem_append_right _ (List.mem_cons_self _ _)
    have hos2 : os_ok = true := hos _ hmem
    subst hos2
    obtain ⟨he, hs⟩ := push_back_throw_granted P_u64 w s val e h3
    subst he
    subst hs
    exact ⟨earlier, val, later, s, h1, h2, h3⟩
  · obtain ⟨b1, b2⟩ := one_mib_run_bound (some mmap_addr) mem0 true v0 pushes hctor
    exact lt_of_le_of_lt (le_trans b1 b2) (by decide)
  · obtain ⟨_, b2⟩ :=
      one_mib_run_bound (some mmap_addr) mem0 true v0 (pushes.take k) hctor
    exact le_trans b2 (by decide)

/-- Witness for C11: 130073 calls `push_back(0)`, every commit granted. -/
theorem one_mib_scenario_hits_ceiling_witness :
    vector.ctor_memory_size P_u64 1048576 (some 4294967296) (fun _ => 0) true =
        Except.ok one_mib_u64 ∧
      size (run P_u64 one_mib_u64 (push_ops (List.replicate 130073 (0, true)))) < 130073 := by
  have hctor : vector.ctor_memory_size P_u64 1048576 (some 4294967296) (fun _ => 0) true =
      Except.ok one_mib_u64 := rfl
  have h := one_mib_scenario_hits_ceiling 4294967296 (fun _ => 0) one_mib_u64
    (List.replicate 130073 (0, true)) (List.length_replicate _ _)
    (fun p hp => by rw [List.eq_of_mem_replicate hp]) hctor
  exact ⟨hctor, h.2.2.1⟩

/-- C11 (as stated, refuted): on `vector<uint64_t>` constructed in a 1 MiB
reservation, 130073 calls `push_back(0)` with every commit granted do not all
return, and `size()` is not 130073 afterwards. -/
theorem one_mib_scenario_counterexample :
    vector.ctor_memory_size P_u64 1048576 (some 4294967296) (fun _ => 0) true =
        Except.ok one_mib_u64 ∧
      push_all P_u64 one_mib_u64 (List.replicate 130073 (0, true)) = none ∧
      size (run P_u64 one_mib_u64 (push_ops (List.replicate 130073 (0, true)))) ≠ 130073 := by
  have hctor : vector.ctor_memory_size P_u64 1048576 (some 4294967296) (fun _ => 0) true =
      Except.ok one_mib_u64 := rfl
  refine ⟨hctor, ?_, ?_⟩
  · exact one_mib_push_all_none (some 4294967296) (fun _ => 0) true one_mib_u64 _
      (List.length_replicate _ _) hctor
  · obtain ⟨b1, b2⟩ := one_mib_run_bound (some 4294967296) (fun _ => 0) true one_mib_u64
      (List.replicate 130073 (0, true)) hctor
    have b3 : size (run P_u64 one_mib_u64 (push_ops (List.replicate 130073 (0, true)))) ≤
        94479 := le_trans b1 b2
    omega

/-- C12 (the code departs from it): with 100-byte elements and 4096-byte
pages (so `sizeof(T) < pageSize`) construction succeeds with `size() == 0`
and `capacity() == 0`: the 40 committed bytes hold no element. -/
theorem ctor_capacity_zero :
    ∃ v0 : vector (List Nat),
      vector.ctor_memory_size (P_blob 100) 1048576 (some 4294967296) (fun _ => []) true =
        Except.ok v0 ∧
      (P_blob 100).sizeofT < (P_blob 100).page_size ∧
      size v0 = 0 ∧ capacity v0 = 0 ∧ ¬ capacity v0 > 0 :=
  ⟨_, rfl, by decide, rfl, rfl, by decide⟩

/-- C13 (the code departs from it): with 100-byte elements and 4096-byte pages
the container is constructed with `capacity() == 0` and holds one element
after a `push_back`; `freez()` then asks for `0 * 100 == 0` bytes to be made
read-only, which changes no page, so every byte of the live element in slot 0
is still read-write and a write to it is done, not rejected. -/
theorem freez_leaves_live_element_writable :
    ∃ v0 v1 w : vector (List Nat),
      vector.ctor_memory_size (P_blob 100) 1048576 (some 4294967296) (fun _ => []) true =
        Except.ok v0 ∧
      push_back (P_blob 100) v0 (List.replicate 100 1) true = Result.ok v1 ∧
      size v1 = 1 ∧ capacity v1 = 0 ∧
      freez (P_blob 100) v1 true = Result.ok w ∧
      w.log = v1.log ++ [Event.mprotect 4294967296 0 Prot.PROT_READ] ∧
      operator_index w 0 = some (List.replicate 100 1) ∧
      (∀ k, k < 100 → prot_at 4096 w.log (0 * 100 + k) = Prot.PROT_READ_WRITE) ∧
      write_allowed (P_blob 100) w 0 = true ∧
      (write_element (P_blob 100) w 0 (List.replicate 100 2)).isSome = true :=
  ⟨_, _, _, rfl, rfl, rfl, rfl, rfl, rfl, rfl, by decide, rfl, rfl⟩

/-- C14 (the code departs from it): a `vector<std::string>` holding one string
is destroyed by releasing the reservation only; the destructor of the live
element in slot 0 is never called, and for no container does `~vector` call
an element destructor. -/
theorem dtor_destroys_no_element :
    ∃ v1 : vector String,
      vector.ctor_memory_size P_string 1073741824 (some 8589934592) (fun _ => "") true =
        Except.ok fresh_string ∧
      push_all P_string fresh_string [("foo bar baz", true)] = some v1 ∧
      size v1 = 1 ∧ P_string.is_trivially_destructible = false ∧
      vector.dtor v1 = v1.log ++ [Event.munmap 8589934592 1073741824] ∧
      Event.destroy 0 ∉ vector.dtor v1 ∧
      ∀ (β : Type) (v : vector β) (i : Nat),
        Event.destroy i ∈ vector.dtor v → Event.destroy i ∈ v.log :=
  ⟨_, rfl, rfl, rfl, rfl, rfl, by decide, fun _ v i h => by
    unfold vector.dtor at h
    rw [List.mem_append] at h
    cases h with
    | inl h => exact h
    | inr h =>
      rw [List.mem_singleton] at h
      cases h⟩

/-- C15 (the code departs from it): on a `vector<std::string>` holding
`"a", "b", "c"`, `erase(begin(), begin() + 1)` calls the destructor of slot 0,
the erased slot, and then assigns to slots 0 and 1; the vacated trailing slot
2 is not destroyed, and slot 0 is assigned to after its destruction. -/
theorem erase_destroys_erased_range :
    ∃ v3 : vector String,
      vector.ctor_memory_size P_string 1073741824 (some 8589934592) (fun _ => "") true =
        Except.ok fresh_string ∧
      push_all P_string fresh_string [("a", true), ("b", true), ("c", true)] = some v3 ∧
      (erase P_string v3 0 1).log =
        v3.log ++ [Event.destroy 0, Event.assign 0, Event.assign 1] ∧
      Event.destroy 2 ∉ (erase P_string v3 0 1).log :=
  ⟨_, rfl, rfl, by decide, by decide⟩

/-- C16 (the code departs from it): on 8-byte elements `0, 1, 2` and the range
`[0, 1)` the three strategies leave the same `size()`, but the `memmove`
strategy leaves `1` at index 1 where the move-assigning and the copy-assigning
strategies leave `2`. -/
theorem erase_strategies_differ :
    ∃ v3 : vector Nat,
      push_all P_u64 fresh_u64 [(0, true), (1, true), (2, true)] = some v3 ∧
      operator_index (erase_trivially_copyable P_u64 v3 0 1) 1 = some 1 ∧
      operator_index (erase_move_assign P_u64 v3 0 1) 1 = some 2 ∧
      operator_index (erase_copy_assign P_u64 v3 0 1) 1 = some 2 ∧
      size (erase_trivially_copyable P_u64 v3 0 1) = size (erase_move_assign P_u64 v3 0 1) ∧
      size (erase_move_assign P_u64 v3 0 1) = size (erase_copy_assign P_u64 v3 0 1) :=
  ⟨_, rfl, by decide, by decide, by decide, rfl, rfl⟩

/-- C17: for every element size `s >= 1`, ratio `num/den` and capacity `c`,
a `push_back` that returns on `size() == capacity() == c` with `c * s * num`
below `SIZE_MOD` commits exactly `c * s * num / den` bytes and leaves
`capacity() == c * num / den`; one that returns on `size() < capacity()`
commits nothing and leaves `capacity()` unchanged. -/
theorem push_back_growth_amount {α : Type} (P : Params α) (v w : vector α) (val : α)
    (os_ok : Bool) (hs : 0 < P.sizeofT) (hok : push_back P v val os_ok = Result.ok w) :
    (size v = capacity v → capacity v * P.sizeofT * P.num < SIZE_MOD →
      w.log = v.log ++
        [Event.mprotect v.m_data (capacity v * P.sizeofT * P.num / P.den)
          Prot.PROT_READ_WRITE, Event.construct (size v)] ∧
      capacity w = capacity v * P.num / P.den) ∧
    (size v < capacity v →
      w.log = v.log ++ [Event.construct (size v)] ∧ capacity w = capacity v) := by
  refine ⟨fun hsz hno => ?_, fun hlt => ?_⟩
  · obtain ⟨_, hcap, _, hlog⟩ := push_back_ok_growth P v w val os_ok hok hsz
    have hmod : (v.m_capacity * P.sizeofT * P.num) % SIZE_MOD =
        v.m_capacity * P.sizeofT * P.num := Nat.mod_eq_of_lt hno
    rw [hmod] at hcap hlog
    refine ⟨hlog, ?_⟩
    show w.m_capacity = v.m_capacity * P.num / P.den
    rw [hcap, Nat.div_div_eq_div_mul]
    have e : v.m_capacity * P.sizeofT * P.num = v.m_capacity * P.num * P.sizeofT := by ring
    rw [e, Nat.mul_div_mul_right _ _ hs]
  · have hne : v.m_size ≠ v.m_capacity := Nat.ne_of_lt hlt
    obtain ⟨hcap, _, hlog⟩ := push_back_ok_no_growth P v w val os_ok hok hne
    exact ⟨hlog, hcap⟩

/-- Witness for C17: a full `vector<uint64_t>` of capacity 64 commits 768
bytes and reaches capacity 96; the empty one of the test commits nothing. -/
theorem push_back_growth_amount_witness :
    capacity (push_back P_u64 brim_u64 5 true).state = 64 * 3 / 2 ∧
      (push_back P_u64 brim_u64 5 true).state.log =
        brim_u64.log ++ [Event.mprotect 4294967296 (64 * 8 * 3 / 2) Prot.PROT_READ_WRITE,
          Event.construct 64] ∧
      capacity (push_back P_u64 fresh_u64 5 true).state = 64 := by
  have h1 := push_back_growth_amount P_u64 brim_u64 (push_back P_u64 brim_u64 5 true).state
    5 true (by decide) rfl
  have h2 := push_back_growth_amount P_u64 fresh_u64 (push_back P_u64 fresh_u64 5 true).state
    5 true (by decide) rfl
  have g := h1.1 rfl (by decide)
  exact ⟨g.2, g.1, (h2.2 (by decide)).2⟩

/-- C18: with ratio 3/2 and element size `s >= 1`, in every state reached from
a successful construction whose reservation of `B` bytes `mmap` granted (a
user address space holds fewer than `2 ^ 64 / 3` bytes, so `B * 3` is below
`SIZE_MOD`), a `push_back` that returns on `size() == capacity() == c` with
`c >= 2` leaves a capacity strictly greater than `c`: the capacity does not
decrease, the slot it constructed, index `c`, is below the new capacity, and
`size() <= capacity()` holds afterwards. -/
theorem growth_strictly_increases {α : Type} (P : Params α)
    (memoryInBytes : Nat) (mmap_result : Option Nat) (mem0 : Nat → α) (os0 : Bool)
    (v0 w : vector α) (ops : List (Op α)) (val : α) (os_ok : Bool)
    (hnum : P.num = 3) (hden : P.den = 2) (hs : 0 < P.sizeofT)
    (hB : memoryInBytes * 3 < SIZE_MOD)
    (hctor : vector.ctor_memory_size P memoryInBytes mmap_result mem0 os0 = Except.ok v0)
    (hc : 2 ≤ capacity (run P v0 ops))
    (hsz : size (run P v0 ops) = capacity (run P v0 ops))
    (hok : push_back P (run P v0 ops) val os_ok = Result.ok w) :
    capacity (run P v0 ops) < capacity w ∧ size (run P v0 ops) < capacity w ∧
      size w ≤ capacity w ∧
      w.log = (run P v0 ops).log ++
        [Event.mprotect (run P v0 ops).m_data (capacity (run P v0 ops) * P.sizeofT * 3 / 2)
          Prot.PROT_READ_WRITE, Event.construct (size (run P v0 ops))] := by
  obtain ⟨_, hb, _, _, hmap, _, hcap, _⟩ :=
    ctor_memory_size_ok P memoryInBytes mmap_result mem0 os0 v0 hctor
  have h0 : v0.m_capacity * P.sizeofT ≤ v0.m_mappingSize := by
    rw [hcap, hmap]
    exact le_trans (Nat.div_mul_le_self _ _) hb
  obtain ⟨h1, h2⟩ := run_capacity_bytes P ops v0 h0
  rw [h1, hmap] at h2
  have hno : capacity (run P v0 ops) * P.sizeofT * 3 < SIZE_MOD :=
    lt_of_le_of_lt (Nat.mul_le_mul_right 3 h2) hB
  exact growth_increases_without_wrap P (run P v0 ops) w val os_ok hnum hden hs hc hsz hno hok

/-- Witness for C18: the `vector<std::string>` of the test holding four
strings is full at capacity 4; the fifth `push_back` commits 192 bytes and
leaves capacity 6. -/
theorem growth_strictly_increases_witness :
    vector.ctor_memory_size P_string 1073741824 (some 8589934592) (fun _ => "") true =
        Except.ok fresh_string ∧
      capacity (run P_string fresh_string
        (push_ops [("a", true), ("b", true), ("c", true), ("d", true)])) = 4 ∧
      capacity (push_back P_string (run P_string fresh_string
        (push_ops [("a", true), ("b", true), ("c", true), ("d", true)])) "e" true).state = 6 ∧
      4 < 6 := by
  have hctor : vector.ctor_memory_size P_string 1073741824 (some 8589934592) (fun _ => "")
      true = Except.ok fresh_string := rfl
  have h := growth_strictly_increases P_string 1073741824 (some 8589934592) (fun _ => "")
    true fresh_string
    (push_back P_string (run P_string fresh_string
      (push_ops [("a", true), ("b", true), ("c", true), ("d", true)])) "e" true).state
    (push_ops [("a", true), ("b", true), ("c", true), ("d", true)]) "e" true
    rfl rfl (by decide) (by decide) hctor (by decide) rfl rfl
  have e4 : capacity (run P_string fresh_string
      (push_ops [("a", true), ("b", true), ("c", true), ("d", true)])) = 4 := rfl
  have e6 : capacity (push_back P_string (run P_string fresh_string
      (push_ops [("a", true), ("b", true), ("c", true), ("d", true)])) "e" true).state = 6 :=
    rfl
  have hlt := h.1
  rw [e4, e6] at hlt
  exact ⟨hctor, e4, e6, hlt⟩

/-- C19 (as amended): for an element type with `sizeof(T) < pageSize`, when
`mmap` returns a mapping and the OS grants the commit, construction with byte
budget `B` returns an object if and only if `pageSize / sizeof(T) <= B`; for a
smaller budget the constructor throws `std::bad_alloc` although the
reservation was made. -/
theorem ctor_succeeds_iff_budget {α : Type} (P : Params α) (B addr : Nat) (mem0 : Nat → α)
    (hs : P.sizeofT < P.page_size) :
    ((∃ v0, vector.ctor_memory_size P B (some addr) mem0 true = Except.ok v0) ↔
        P.page_size / P.sizeofT ≤ B) ∧
      (B < P.page_size / P.sizeofT →
        vector.ctor_memory_size P B (some addr) mem0 true = Except.error Error.bad_alloc) := by
  have hgt : ∀ h : B < P.page_size / P.sizeofT,
      vector.ctor_memory_size P B (some addr) mem0 true = Except.error Error.bad_alloc := by
    intro h
    unfold vector.ctor_memory_size
    rw [if_neg (not_not.mpr hs)]
    simp only
    unfold realloc_cap
    rw [if_pos h]
  refine ⟨⟨fun ⟨v0, h0⟩ => ?_, fun hle => ?_⟩, hgt⟩
  · exact (ctor_memory_size_ok P B (some addr) mem0 true v0 h0).2.1
  · unfold vector.ctor_memory_size
    rw [if_neg (not_not.mpr hs)]
    simp only
    unfold realloc_cap
    rw [if_neg (Nat.not_lt.mpr hle)]
    exact ⟨_, rfl⟩

/-- Witness for C19: `vector<uint64_t>` with 4096-byte pages is constructed
with a budget of 512 bytes and not with one of 511. -/
theorem ctor_succeeds_iff_budget_witness :
    (∃ v0, vector.ctor_memory_size P_u64 512 (some 4294967296) (fun _ => 0) true =
        Except.ok v0) ∧
      vector.ctor_memory_size P_u64 511 (some 4294967296) (fun _ => 0) true =
        Except.error Error.bad_alloc := by
  have h1 := ctor_succeeds_iff_budget P_u64 512 4294967296 (fun _ => 0) (by decide)
  have h2 := ctor_succeeds_iff_budget P_u64 511 4294967296 (fun _ => 0) (by decide)
  exact ⟨h1.1.mpr (by decide), h2.2 (by decide)⟩

/-- C19 (as stated, refuted): with 5000-byte elements and 4096-byte pages,
`pageSize / sizeof(T)` is 0, within every budget, yet construction with a
1 MiB budget ends in the failed assertion of line 57 although `mmap` and the
OS grant everything. -/
theorem ctor_assertion_counterexample :
    (P_blob 5000).page_size / (P_blob 5000).sizeofT ≤ 1048576 ∧
      vector.ctor_memory_size (P_blob 5000) 1048576 (some 4294967296) (fun _ => []) true =
        Except.error Error.assertion ∧
      ¬ ∃ v0, vector.ctor_memory_size (P_blob 5000) 1048576 (some 4294967296)
        (fun _ => []) true = Except.ok v0 :=
  ⟨by decide, rfl, fun ⟨_, h⟩ => by
    have h2 : vector.ctor_memory_size (P_blob 5000) 1048576 (some 4294967296)
        (fun _ => []) true = Except.error Error.assertion := rfl
    rw [h2] at h
    cases h⟩

end Vec
